import Mathlib

/-!
Shallow embedding of the core of the `supabase-storage` repository slice:
the GCS backend adapter (`src/storage/backend/gcs/adapter.ts`), the GCS
request signer (`signer.ts`), the tenant connection pool
(`TenantConnection`), and the hand-rolled base32 codec
(`src/internal/auth/base64.ts`), together with theorems settling the
frozen claims about them.

Machine integers are modelled as `Nat`; JavaScript bitwise operators on
byte-sized operands coincide with `Nat` operations (`|||`, `&&&`, `<<<`,
`>>>`) because all values involved stay far below `2^31`.  Typed-array
(`Buffer`/`Uint8Array`) element stores truncate modulo 256 and ignore
out-of-bounds indices; both behaviours are modelled explicitly.
-/

namespace StorageSpec

/-! ## Adapter key derivation

`withOptionalVersion` is imported by the GCS adapter from
`../adapter`, a file of this repository that is not part of the given
sources. -/

/-- Modelled from the spec: `withOptionalVersion` (declared in
`src/storage/backend/adapter.ts`, not among the given sources).  Spec §3:
"derived key = `tenant/bucket/name[/version]`; the version suffix is
appended only when a version is known"; spec §6: "Object key scheme:
`bucket/objectName` with an optional `/version` suffix". -/
def withOptionalVersion (key : String) (version : Option String) : String :=
  match version with
  | some v => key ++ "/" ++ v
  | none => key

/-! ## GCS `copyObject` metadata directive (claim C1)

From `src/storage/backend/gcs/adapter.ts`, `copyObject` (lines 238-281):

    const objectName = withOptionalVersion(destination, destinationVersion)
    const copySource = `${bucketName}/${withOptionalVersion(source, version)}`
    ...
    'X-Goog-Metadata-Directive': objectName !== copySource ? 'COPY' : 'REPLACE',
-/

/-- The value the GCS adapter sends as the `X-Goog-Metadata-Directive`
header of a copy request, as computed by `copyObject`. -/
def metadataDirective (bucketName source : String) (version : Option String)
    (destination : String) (destinationVersion : Option String) : String :=
  let objectName := withOptionalVersion destination destinationVersion
  let copySource := bucketName ++ "/" ++ withOptionalVersion source version
  if objectName ≠ copySource then "COPY" else "REPLACE"

/-! ## GCS `list` beforeDate filtering (claim C7)

From `src/storage/backend/gcs/adapter.ts`, `list` (lines 94-110):

    const keys = data.Contents?.filter((object) => {
      if (object.LastModified && options?.beforeDate) {
        return new Date(object.LastModified) < options.beforeDate
      } else return true
    }).map((object) => { ... })
-/

/-- One `Contents` entry of the parsed XML list response.  `LastModified`
is `none` when the field is absent or empty (falsy in the source);
otherwise it is the parsed modification time as a timestamp. -/
structure ListEntry where
  key : String
  lastModified : Option Nat
  size : Nat
deriving DecidableEq

/-- The filter predicate applied by `list` to each entry: when both a
modification time and a `beforeDate` are present the entry is kept
exactly when its modification time is strictly before `beforeDate`;
otherwise it is kept. -/
def listFilterPred (beforeDate : Option Nat) (e : ListEntry) : Bool :=
  match e.lastModified, beforeDate with
  | some lm, some bd => lm < bd
  | _, _ => true

/-- JavaScript `String.prototype.replace` with a string pattern and empty
replacement: removes the first occurrence of `pat` from `s`. -/
def replaceFirst (s pat : String) : String :=
  match s.splitOn pat with
  | [] => s
  | x :: rest => x ++ String.intercalate pat rest

/-- The per-entry mapping applied by `list` after filtering: when a
non-empty prefix option is supplied the first occurrence of the prefix
and then the first `/` are removed from the key. -/
def listMapEntry (pfx : String) (e : ListEntry) : String × Nat :=
  if pfx ≠ "" then (replaceFirst (replaceFirst e.key pfx) "/", e.size)
  else (e.key, e.size)

/-- The entries retained by `list` for a page, before the name mapping. -/
def listRetained (contents : List ListEntry) (beforeDate : Option Nat) :
    List ListEntry :=
  contents.filter (listFilterPred beforeDate)

/-- The `keys` page returned by `list`. -/
def listKeys (contents : List ListEntry) (pfx : String)
    (beforeDate : Option Nat) : List (String × Nat) :=
  (listRetained contents beforeDate).map (listMapEntry pfx)

/-! ## GCS metadata normalization (claim C8)

From `src/storage/backend/gcs/adapter.ts`, `buildMetadata` (lines
588-601).  `new Headers(response.headers)` lower-cases header names and
`headers.get` is case-insensitive; `x || d` falls back to `d` when the
header is absent (`null`) or empty. -/

/-- A backend HTTP response: its headers (name/value pairs) and status. -/
structure HttpResponse where
  headers : List (String × String)
  status : Nat

/-- Case-insensitive header lookup, as `Headers.prototype.get`. -/
def headersGet (headers : List (String × String)) (name : String) :
    Option String :=
  (headers.find? (fun kv => kv.1.toLower == name.toLower)).map (·.2)

/-- JavaScript `x || d` on a nullable string: `d` when `x` is `null` or
the empty string. -/
def orDefault (x : Option String) (d : String) : String :=
  match x with
  | none => d
  | some s => if s = "" then d else s

/-- The common metadata shape every GCS response is normalized into. -/
structure ObjectMetadata where
  cacheControl : String
  mimetype : String
  eTag : String
  contentLength : Nat
  size : Nat
  httpStatusCode : Nat
deriving DecidableEq

/-- `GCSBackend.buildMetadata`: normalizes a backend response into the
common metadata shape. -/
def buildMetadata (r : HttpResponse) : ObjectMetadata :=
  { cacheControl := orDefault (headersGet r.headers "Cache-Control") "no-cache"
    mimetype := orDefault (headersGet r.headers "Content-Type") "application/octet-stream"
    eTag := orDefault (headersGet r.headers "ETag") ""
    contentLength := ((headersGet r.headers "Content-Length").bind String.toNat?).getD 0
    size := ((headersGet r.headers "Content-Length").bind String.toNat?).getD 0
    httpStatusCode := r.status }

/-- Metadata returned by `getObject` for a successful GET response. -/
def getObjectMetadata (r : HttpResponse) : ObjectMetadata := buildMetadata r

/-- Metadata returned by `headObject` for a successful HEAD response. -/
def headObjectMetadata (r : HttpResponse) : ObjectMetadata := buildMetadata r

/-- Metadata returned by `uploadObject`: the PUT response is discarded
and a follow-up `headObject` provides the metadata. -/
def uploadObjectMetadata (_putResponse headResponse : HttpResponse) :
    ObjectMetadata := headObjectMetadata headResponse

/-- Metadata returned by `copyObject` for a successful copy response. -/
def copyObjectMetadata (r : HttpResponse) : ObjectMetadata := buildMetadata r

/-! ## GCS request signer (claims C2, C9)

From `src/storage/backend/gcs/signer.ts`, `getSignedUrl` (lines 122-197).
The cryptographic pieces (SHA-256 of the canonical request, the RSA
signature obtained from `client.sign`) are opaque inputs; what is
modelled is the control flow — expiry resolution and validation, the
order of client invocations, header hoisting, and the query parameters
appended to the presigned URL. -/

/-- An invocation of the Google auth client during `getSignedUrl`, in
the order the source performs them. -/
inductive ClientCall where
  | getCredentials
  | sign
deriving DecidableEq

/-- The canonical request handed to `getSignedUrl`. -/
structure CanonicalRequest where
  method : String
  host : String
  path : String
  query : List (String × String)
  headers : List (String × String)

/-- The presigning options (`RequestPresigningArguments`) relevant to the
model, plus the opaque environment values: the compact ISO-8601 rendering
of the signing date, the credential client email, and the hex-encoded
signature `client.sign` would return. -/
structure PresignOptions where
  expiresIn : Option Nat
  unhoistableHeaders : Option (List String)
  unsignableHeaders : List String
  signableHeaders : List String
  signingDateBasic : String
  clientEmail : String
  signatureHex : String

/-- The outcome of a successful `getSignedUrl` call: the final query
parameters of the presigned URL (in order) and the resolved expiry. -/
structure SignedUrl where
  params : List (String × String)
  expiresIn : Nat

/-- `expiresIn = options?.expiresIn ?? 900` (signer line 152): the
signer's default expiry is 900 seconds. -/
def resolvedExpiresIn (expiresIn : Option Nat) : Nat := expiresIn.getD 900

/-- Runs `getSignedUrl` and records, alongside its outcome, the client
invocations it performs in order.  The `RangeError` on an expiry above
604800 seconds is thrown before `client.getCredentials` and
`client.sign` are reached. -/
def getSignedUrlRun (req : CanonicalRequest) (opts : PresignOptions) :
    List ClientCall × Except String SignedUrl :=
  let headers0 := req.headers.map (fun kv => (kv.1.toLower, kv.2))
  let headers1 :=
    if (headers0.find? (fun kv => kv.1 == "host")).isSome then headers0
    else headers0 ++ [("host", req.host)]
  let unhoistable := opts.unhoistableHeaders.getD (headers1.map (·.1))
  let hoisted := headers1.filter (fun kv => ¬ unhoistable.contains kv.1)
  let headers2 := headers1.filter (fun kv => unhoistable.contains kv.1)
  let headers3 := headers2.filter (fun kv =>
    ¬ (opts.unsignableHeaders.contains kv.1 ∧
       ¬ opts.signableHeaders.contains kv.1))
  let expiresIn := resolvedExpiresIn opts.expiresIn
  if expiresIn > 604800 then
    ([], .error "The longest expiration value is 604800 seconds (7 days)")
  else
    let credentialScope :=
      String.intercalate "/" [opts.signingDateBasic.take 8, "auto", "storage", "goog4_request"]
    let signedHeaders := String.intercalate ";" (headers3.map (·.1))
    let q1 := req.query ++ hoisted ++
      [("X-Goog-Algorithm", "GOOG4-RSA-SHA256"),
       ("X-Goog-Credential", opts.clientEmail ++ "/" ++ credentialScope),
       ("X-Goog-Date", opts.signingDateBasic),
       ("X-Goog-Expires", toString expiresIn),
       ("X-Goog-SignedHeaders", signedHeaders)]
    let q2 := q1.mergeSort (fun a b => decide (a.1 ≤ b.1))
    ([.getCredentials, .sign],
     .ok { params := q2 ++ [("X-Goog-Signature", opts.signatureHex)]
           expiresIn := expiresIn })

/-- `GCSBackend.privateAssetUrl` (adapter lines 347-363): a GET request
for the versioned object with no extra headers or query, signed with
`expiresIn: 600`. -/
def privateAssetUrlRun (bucketName key : String) (version : Option String)
    (signingDateBasic clientEmail signatureHex : String) :
    List ClientCall × Except String SignedUrl :=
  getSignedUrlRun
    { method := "GET"
      host := bucketName ++ ".storage.googleapis.com"
      path := "/" ++ withOptionalVersion key version
      query := []
      headers := [] }
    { expiresIn := some 600
      unhoistableHeaders := none
      unsignableHeaders := []
      signableHeaders := []
      signingDateBasic := signingDateBasic
      clientEmail := clientEmail
      signatureHex := signatureHex }

/-! ## GCS bulk deletion (claim C5)

From `src/storage/backend/gcs/adapter.ts`, `deleteObjects` (lines
288-310): a `p-limit` semaphore caps concurrent deletions at
`MAX_PARALLEL_LIMIT = 10`; the in-flight queue is flushed once it holds
`MAX_QUEUE_SIZE = 1000` promises; each per-key deletion is wrapped in
`.catch(() => {})`, so individual failures are swallowed. -/

/-- `MAX_PARALLEL_LIMIT` from `deleteObjects`. -/
def MAX_PARALLEL_LIMIT : Nat := 10

/-- `MAX_QUEUE_SIZE` from `deleteObjects`. -/
def MAX_QUEUE_SIZE : Nat := 1000

/-- Error raised by a failing per-key backend deletion. -/
inductive DeleteErr where
  | deleteFailed
deriving DecidableEq

/-- The wrapper `deleteObject(...).catch(() => {})` around one per-key
deletion: any error is swallowed and the task resolves. -/
def catchIgnore (r : Except DeleteErr Unit) : Except DeleteErr Unit :=
  match r with
  | .error _ => .ok ()
  | .ok _ => .ok ()

/-- `Promise.all` over settled task outcomes: rejects with the first
error, resolves otherwise. -/
def promiseAll (rs : List (Except DeleteErr Unit)) : Except DeleteErr Unit :=
  match rs.find? (fun r => r matches .error _) with
  | some (.error e) => .error e
  | _ => .ok ()

/-- The overall outcome of `deleteObjects`, given the outcome of each
per-key backend deletion: every task is wrapped in `catchIgnore` before
the queue is awaited. -/
def deleteObjectsOutcome (perKey : List (Except DeleteErr Unit)) :
    Except DeleteErr Unit :=
  promiseAll (perKey.map catchIgnore)

/-- State of the `p-limit` semaphore admitting the per-key deletions:
how many tasks are queued waiting and how many are running. -/
structure SemState where
  waiting : Nat
  active : Nat
deriving DecidableEq

/-- One scheduling step of the `p-limit` semaphore with concurrency cap
`cap`: a waiting task starts only while fewer than `cap` tasks run, and
a running task may finish. -/
inductive SemStep (cap : Nat) : SemState → SemState → Prop
  | start (w a : Nat) : a < cap → SemStep cap ⟨w + 1, a⟩ ⟨w, a + 1⟩
  | finish (w a : Nat) : SemStep cap ⟨w, a + 1⟩ ⟨w, a⟩

/-- Reachability of semaphore states from an initial state. -/
inductive SemReachable (cap : Nat) (init : SemState) : SemState → Prop
  | refl : SemReachable cap init init
  | step {s s' : SemState} :
      SemReachable cap init s → SemStep cap s s' → SemReachable cap init s'

/-- The in-flight queue length maintained by the submission loop of
`deleteObjects` after one more key is enqueued: a full queue (`length >=
MAX_QUEUE_SIZE`) is awaited and emptied (`queue.splice(0)`) before the
push. -/
def queueStep (len : Nat) : Nat :=
  (if MAX_QUEUE_SIZE ≤ len then 0 else len) + 1

/-- The queue length after the first `n` keys have been enqueued. -/
def queueLenAfter : Nat → Nat
  | 0 => 0
  | n + 1 => queueStep (queueLenAfter n)

/-! ## Tenant connection pool (claims C3, C4, C6)

From the tenant DB connection module (`src/unnamed/part_001`, lines
103-393): `TenantConnection.create`, the process-wide `connections`
TTL cache, and `TenantConnection.transaction`. -/

/-- The outcome of one `pool.transaction()` acquisition attempt.  `ok`
carries the `isCompleted()` state of the returned transaction object;
`errDb` is a `pg.DatabaseError` with its SQLSTATE code and message;
`errTimeout` is knex's `KnexTimeoutError` (pool acquisition timed out);
`errOther` is any other error. -/
inductive PoolOutcome where
  | ok (isCompleted : Bool)
  | errDb (code : String) (message : String)
  | errTimeout
  | errOther
deriving DecidableEq

/-- JavaScript `String.prototype.includes` for a non-empty pattern:
whether `pat` occurs in `s`. -/
def strIncludes (s pat : String) : Bool := 2 ≤ (s.splitOn pat).length

/-- Whether the retry callback re-throws the error (triggering a retry)
instead of bailing: exactly a `pg.DatabaseError` whose code is `08P01`
and whose message contains "no more connections allowed"
(`transaction`, retry callback). -/
def isRetriableErr : PoolOutcome → Bool
  | .errDb code message =>
      code == "08P01" && strIncludes message "no more connections allowed"
  | _ => false

/-- Whether an acquisition outcome is an error. -/
def PoolOutcome.isErr : PoolOutcome → Bool
  | .ok _ => false
  | _ => true

/-- The backoff timeouts precomputed by `async-retry` for the options
`{minTimeout: 50, maxTimeout: 200, retries: 10}` (factor defaults
to 2): `min (50 * 2^n) 200` for the n-th retry. -/
def retryTimeouts : List Nat := (List.range 10).map (fun n => min (50 * 2 ^ n) 200)

/-- `maxRetryTime: 3000` from the retry options. -/
def maxRetryTime : Nat := 3000

/-- Result of the retried acquisition: the final outcome, the number of
`pool.transaction()` calls issued, and the accumulated backoff delay in
milliseconds (attempt execution time is modelled as zero). -/
structure RetryResult where
  result : Except PoolOutcome Bool
  calls : Nat
  elapsed : Nat

/-- The `async-retry` loop around `pool.transaction()`: a successful
acquisition returns at once; a retriable error retries while the elapsed
retry time is below `maxRetryTime` and a precomputed timeout remains;
any other error is bailed immediately.  `outcomes n` is the outcome of
the n-th acquisition attempt. -/
def goRetry (outcomes : Nat → PoolOutcome) :
    List Nat → Nat → Nat → RetryResult
  | ts, attempt, elapsed =>
    match outcomes attempt with
    | .ok c => ⟨.ok c, attempt + 1, elapsed⟩
    | e =>
      if isRetriableErr e then
        if maxRetryTime ≤ elapsed then ⟨.error e, attempt + 1, elapsed⟩
        else
          match ts with
          | [] => ⟨.error e, attempt + 1, elapsed⟩
          | t :: ts' => goRetry outcomes ts' (attempt + 1) (elapsed + t)
      else ⟨.error e, attempt + 1, elapsed⟩

/-- The full retried acquisition as performed by `transaction()`. -/
def runRetry (outcomes : Nat → PoolOutcome) : RetryResult :=
  goRetry outcomes retryTimeouts 0 0

/-- The error ultimately raised by `transaction()` for an underlying
error `e`: the outer catch converts a `KnexTimeoutError` into
`ERRORS.DatabaseTimeout` and re-raises everything else. -/
inductive TxnError where
  | databaseTimeout
  | raised (e : PoolOutcome)
  | databaseErrorAlreadyCompleted
deriving DecidableEq

/-- The outer `catch` of `transaction()`. -/
def outerCatch (e : PoolOutcome) : TxnError :=
  match e with
  | .errTimeout => .databaseTimeout
  | e => .raised e

/-- Inputs of one `TenantConnection.transaction(instance?)` call:
the acquisition outcomes, whether an explicit `instance` was supplied,
whether the connection uses an externally fronted pool, the outcome of
`tnx.executionPromise` (`some e` = rejects with `e`, `none` = resolves),
and the outcome of the `set_config('search_path', ...)` statement. -/
structure TxnInput where
  outcomes : Nat → PoolOutcome
  hasInstance : Bool
  isExternalPool : Bool
  execOutcome : Option PoolOutcome
  rawOutcome : Option PoolOutcome

/-- `TenantConnection.transaction` (lines 291-350): retried acquisition;
then, on an externally fronted pool without an explicit instance, a
transaction that already reports `isCompleted()` has its
`executionPromise` awaited (re-raising its rejection) and, were that
promise to resolve, a `DatabaseError('Transaction already completed')`
is thrown; otherwise the search path is reset, rolling back and
re-raising on failure. -/
def transactionModel (inp : TxnInput) : Except TxnError Bool :=
  match (runRetry inp.outcomes).result with
  | .error e => .error (outerCatch e)
  | .ok completed =>
    if ¬ inp.hasInstance ∧ inp.isExternalPool then
      if completed then
        match inp.execOutcome with
        | some e => .error (outerCatch e)
        | none => .error .databaseErrorAlreadyCompleted
      else
        match inp.rawOutcome with
        | some e => .error (outerCatch e)
        | none => .ok completed
    else .ok completed

/-! ### Pool cache (`connections`, `TenantConnection.create`) -/

/-- The process-wide pool cache: entries `(dbUrl, poolId, expiresAt)`
plus the id the next freshly constructed pool will receive.  Pool
identity is modelled by the numeric id: two `create` calls are bound to
the same pool instance exactly when they return the same id. -/
structure PoolCache where
  entries : List (String × Nat × Nat)
  nextId : Nat

/-- `connections.get(connectionString)` on the TTL cache
(`updateAgeOnGet: true`): a live entry is returned and its expiry
refreshed to `now + ttl`; an expired or missing key is a miss. -/
def cacheGet (c : PoolCache) (key : String) (now ttl : Nat) :
    Option Nat × PoolCache :=
  match c.entries.find? (fun ent => ent.1 == key) with
  | some (_, id, expiresAt) =>
    if now < expiresAt then
      (some id,
       { c with entries :=
          c.entries.map (fun ent => if ent.1 == key then (ent.1, id, now + ttl) else ent) })
    else (none, c)
  | none => (none, c)

/-- `connections.set(connectionString, knexPool)`: replaces any previous
entry for the key. -/
def cacheSet (c : PoolCache) (key : String) (id expiresAt : Nat) : PoolCache :=
  { c with entries :=
      c.entries.filter (fun ent => ¬ (ent.1 == key)) ++ [(key, id, expiresAt)] }

/-- `TenantConnection.create` (lines 186-276): a cached pool for the
connection string is reused; otherwise a new pool is built and cached
only when `!isExternalPool || !isMultitenant`. -/
def tenantCreate (c : PoolCache) (dbUrl : String)
    (isExternalPool isMultitenant : Bool) (now ttl : Nat) : Nat × PoolCache :=
  match cacheGet c dbUrl now ttl with
  | (some id, c') => (id, c')
  | (none, c') =>
    let id := c'.nextId
    let c'' : PoolCache := { c' with nextId := id + 1 }
    if ¬ isExternalPool ∨ ¬ isMultitenant then
      (id, cacheSet c'' dbUrl id (now + ttl))
    else (id, c'')

/-! ## Hand-rolled base32 codec (claim C10)

From `src/internal/auth/base64.ts`, `base32.encode` (lines 10-38) and
`base32.decode` (lines 40-70).  Buffers are lists of bytes (`Nat`
below 256); an out-of-range read (`buffer[i + 1]` past the end) yields
`undefined`, which the bitwise operators coerce to 0, and an
out-of-range typed-array store is ignored.  Both loops are translated
with an explicit fuel argument standing for the loop guard; every run
terminates well within `2 * length` iterations, which the proofs
establish along the way. -/

/-- `base32.alphabet`. -/
def alphabet : List Char := "ABCDEFGHIJKLMNOPQRSTUVWXYZ234567".toList

/-- `base32.padding`. -/
def padding : Char := '='

/-- `this.alphabet.charCodeAt(i)` for an in-range index: the i-th
alphabet character. -/
def alphaChar (i : Nat) : Char := alphabet.getD i 'A'

/-- `base32.fromCharCode`, i.e. `alphabet.indexOf`: `none` models the
`-1` result for a character outside the alphabet. -/
def alphaIndexOf (ch : Char) : Option Nat := alphabet.findIdx? (· == ch)

/-- The `while (i < buffer.length)` loop of `base32.encode`, emitting
the 5-bit alphabet indices.  `buf` is the unread tail of the buffer
(its head is `buffer[i]`), and `k` the carry offset; the branch with
`k' < 0` rereads the current byte, the other consumes it (`i += 1`). -/
def encodeGo (buf : List Nat) (fuel : Nat) (k : Int) : List Nat :=
  match fuel, buf with
  | 0, _ => []
  | _, [] => []
  | fuel' + 1, b :: rest =>
    let k' : Int := if k + 5 ≥ 5 then k + 5 - 8 else k + 5
    if k' < 0 then
      let x := (b >>> (-k').toNat) ||| (rest.getD 0 0 <<< (8 + k').toNat)
      (x &&& 31) :: encodeGo (b :: rest) fuel' k'
    else
      let x := (b <<< k'.toNat) ||| (rest.getD 0 0 >>> (8 - k').toNat)
      (x &&& 31) :: encodeGo rest fuel' k'

/-- The alphabet indices emitted for a whole buffer. -/
def encodeIdx (buf : List Nat) : List Nat := encodeGo buf (2 * buf.length) 0

/-- `base32.encode`: the result buffer is allocated with
`Math.ceil(length / 5) * 8` bytes prefilled with the padding character,
and the emitted characters overwrite its front. -/
def base32encode (buf : List Nat) : List Char :=
  let targetLen := ((buf.length + 4) / 5) * 8
  let chars := (encodeIdx buf).map alphaChar
  chars ++ List.replicate (targetLen - chars.length) padding

/-- `(h | v) & 0xff`: a typed-array `|=` store into a byte cell. -/
def orByte (h v : Nat) : Nat := (h ||| v) &&& 255

/-- `result[j] |= v` when `j` addresses the head of the unwritten tail
of the result buffer; a store past the end is ignored. -/
def orHead (tail : List Nat) (v : Nat) : List Nat :=
  match tail with
  | [] => []
  | h :: t => orByte h v :: t

/-- `result[j] |= v` at absolute index `j` of the result buffer. -/
def bufOrSet (arr : List Nat) (j : Nat) (v : Nat) : List Nat :=
  if j < arr.length then arr.set j (orByte (arr.getD j 0) v) else arr

/-- The `while (i < text.length)` loop of `base32.decode`, translated
with the absolute output index `j` as in the source: a character outside
the alphabet is skipped; with `k < 3` the current character contributes
high bits of byte `j` and is consumed; otherwise it contributes the low
bits, `j` advances, and the character is reread. -/
def decodeGo (text : List Char) (fuel j : Nat) (k : Int) (arr : List Nat) :
    List Nat :=
  match fuel, text with
  | 0, _ => arr
  | _, [] => arr
  | fuel' + 1, ch :: rest =>
    match alphaIndexOf ch with
    | none => decodeGo rest fuel' j k arr
    | some x =>
      if k < 3 then
        decodeGo rest fuel' j (k + 5) (bufOrSet arr j (x <<< (3 - k).toNat))
      else
        decodeGo (ch :: rest) fuel' (j + 1) (k - 8) (bufOrSet arr j (x >>> (k - 3).toNat))

/-- `text.replace(/=*$/, '')`: strips trailing padding characters. -/
def stripPad (text : List Char) : List Char :=
  (text.reverse.dropWhile (· == padding)).reverse

/-- `base32.decode`: after stripping trailing padding the result buffer
is allocated with `Math.floor(length * 5 / 8)` zero bytes and filled by
the decode loop. -/
def base32decode (text : List Char) : List Nat :=
  let t := stripPad text
  let len := t.length * 5 / 8
  decodeGo t (2 * t.length) 0 0 (List.replicate len 0)

/-- The decode loop re-expressed over the unwritten tail of the result
buffer (the source's `j` is the length of the already-written front,
which no later store touches); used to reason about `decodeGo`. -/
def decodeRel (text : List Char) (fuel : Nat) (k : Int) (tail : List Nat) :
    List Nat :=
  match fuel, text with
  | 0, _ => tail
  | _, [] => tail
  | fuel' + 1, ch :: rest =>
    match alphaIndexOf ch with
    | none => decodeRel rest fuel' k tail
    | some x =>
      if k < 3 then
        decodeRel rest fuel' (k + 5) (orHead tail (x <<< (3 - k).toNat))
      else
        match tail with
        | [] => decodeRel (ch :: rest) fuel' (k - 8) []
        | h :: t => orByte h (x >>> (k - 3).toNat) :: decodeRel (ch :: rest) fuel' (k - 8) t

/-! ## Claim C1 -/

/-- C1: the claim fails on the code.  `copyObject` compares the bare
destination object name against the bucket-prefixed copy source, so a
copy whose source and destination key (and version) are identical sends
the `COPY` metadata directive — a no-op copy — not `REPLACE`. -/
theorem copyObject_identical_key_sends_copy_directive :
    metadataDirective "bucket" "a.txt" none "a.txt" none = "COPY" ∧
    metadataDirective "bucket" "a.txt" none "a.txt" none ≠ "REPLACE" := by
  decide

/-! ## Claim C7 -/

/-- C7: when a `beforeDate` filter is supplied to `list`, an entry whose
modification time is on or after `beforeDate` is excluded from the
retained entries (and hence from the returned page, which maps exactly
the retained entries), while an entry whose modification time is
strictly before `beforeDate` is retained. -/
theorem list_beforeDate_filtering (contents : List ListEntry) (pfx : String)
    (bd lm : Nat) (e : ListEntry) (he : e ∈ contents)
    (hlm : e.lastModified = some lm) :
    (bd ≤ lm → e ∉ listRetained contents (some bd)) ∧
    (lm < bd → e ∈ listRetained contents (some bd)) ∧
    listKeys contents pfx (some bd)
      = (listRetained contents (some bd)).map (listMapEntry pfx) := by
  refine ⟨?_, ?_, rfl⟩
  · intro hge hmem
    have := (List.mem_filter.mp hmem).2
    simp only [listFilterPred, hlm, decide_eq_true_eq] at this
    omega
  · intro hlt
    exact List.mem_filter.mpr ⟨he, by simp only [listFilterPred, hlm]; exact decide_eq_true hlt⟩

/-- Witness for C7 at a concrete page. -/
theorem list_beforeDate_filtering_witness :
    (10 ≤ 10 → (⟨"a", some 10, 3⟩ : ListEntry) ∉
        listRetained [⟨"a", some 10, 3⟩, ⟨"b", some 5, 4⟩] (some 10)) ∧
    (5 < 10 → (⟨"b", some 5, 4⟩ : ListEntry) ∈
        listRetained [⟨"a", some 10, 3⟩, ⟨"b", some 5, 4⟩] (some 10)) := by
  constructor
  · exact (list_beforeDate_filtering [⟨"a", some 10, 3⟩, ⟨"b", some 5, 4⟩] "p" 10 10
      ⟨"a", some 10, 3⟩ (by decide) rfl).1
  · exact fun _ => ((list_beforeDate_filtering [⟨"a", some 10, 3⟩, ⟨"b", some 5, 4⟩] "p" 10 5
      ⟨"b", some 5, 4⟩ (by decide) rfl).2.1 (by decide))

/-! ## Claim C8 -/

/-- C8: every metadata-returning GCS operation normalizes its response
through `buildMetadata`, whose `mimetype` defaults to
`application/octet-stream` when the response carries no `Content-Type`
and whose `cacheControl` defaults to `no-cache` when it carries no
`Cache-Control`. -/
theorem gcs_metadata_defaults (r rPut : HttpResponse)
    (hct : headersGet r.headers "Content-Type" = none)
    (hcc : headersGet r.headers "Cache-Control" = none) :
    (getObjectMetadata r).mimetype = "application/octet-stream" ∧
    (getObjectMetadata r).cacheControl = "no-cache" ∧
    (headObjectMetadata r).mimetype = "application/octet-stream" ∧
    (headObjectMetadata r).cacheControl = "no-cache" ∧
    (uploadObjectMetadata rPut r).mimetype = "application/octet-stream" ∧
    (uploadObjectMetadata rPut r).cacheControl = "no-cache" ∧
    (copyObjectMetadata r).mimetype = "application/octet-stream" ∧
    (copyObjectMetadata r).cacheControl = "no-cache" := by
  simp [getObjectMetadata, headObjectMetadata, uploadObjectMetadata,
    copyObjectMetadata, buildMetadata, hct, hcc, orDefault]

/-- Witness for C8 at a response with no headers. -/
theorem gcs_metadata_defaults_witness :
    (getObjectMetadata ⟨[], 200⟩).mimetype = "application/octet-stream" ∧
    (getObjectMetadata ⟨[], 200⟩).cacheControl = "no-cache" := by
  have h := gcs_metadata_defaults ⟨[], 200⟩ ⟨[], 200⟩ rfl rfl
  exact ⟨h.1, h.2.1⟩

/-! ## Claim C2 -/

/-- An `Except.map` that lands on `.ok` came from an `.ok` whose payload
maps to the result. -/
theorem exists_of_map_eq_ok {α β ε : Type} {f : α → β} {x : Except ε α} {b : β}
    (h : x.map f = .ok b) : ∃ a, x = .ok a ∧ f a = b := by
  cases x with
  | error e => simp [Except.map] at h
  | ok a =>
      refine ⟨a, rfl, ?_⟩
      simpa [Except.map] using h

/-- C2: a `getSignedUrl` call with `expiresIn` above 604800 seconds
fails with the range error before any client invocation — in particular
`client.sign` is never called; `expiresIn = 604800` passes validation;
and an absent `expiresIn` defaults to 900 seconds. -/
theorem signer_expiry_validation (req : CanonicalRequest)
    (opts : PresignOptions) (e : Nat) (he : 604800 < e) :
    (getSignedUrlRun req { opts with expiresIn := some e }).2
        = .error "The longest expiration value is 604800 seconds (7 days)" ∧
    ClientCall.sign ∉ (getSignedUrlRun req { opts with expiresIn := some e }).1 ∧
    ClientCall.getCredentials ∉ (getSignedUrlRun req { opts with expiresIn := some e }).1 ∧
    (∃ out, (getSignedUrlRun req { opts with expiresIn := some 604800 }).2 = .ok out ∧
      out.expiresIn = 604800) ∧
    (∃ out, (getSignedUrlRun req { opts with expiresIn := none }).2 = .ok out ∧
      out.expiresIn = 900) := by
  have hgt : resolvedExpiresIn (some e) > 604800 := he
  have h1 : (getSignedUrlRun req { opts with expiresIn := some 604800 }).2.map
      SignedUrl.expiresIn = .ok 604800 := by
    simp only [getSignedUrlRun, resolvedExpiresIn, Option.getD]
    norm_num [Except.map]
  have h2 : (getSignedUrlRun req { opts with expiresIn := none }).2.map
      SignedUrl.expiresIn = .ok 900 := by
    simp only [getSignedUrlRun, resolvedExpiresIn, Option.getD]
    norm_num [Except.map]
  refine ⟨?_, ?_, ?_, exists_of_map_eq_ok h1, exists_of_map_eq_ok h2⟩
  · simp only [getSignedUrlRun, if_pos hgt]
  · simp only [getSignedUrlRun, if_pos hgt]
    exact List.not_mem_nil _
  · simp only [getSignedUrlRun, if_pos hgt]
    exact List.not_mem_nil _

/-- Witness for C2 at `expiresIn = 604801`. -/
theorem signer_expiry_validation_witness :
    604800 < 604801 ∧
    (getSignedUrlRun ⟨"GET", "h", "/p", [], []⟩
        ⟨some 604801, none, [], [], "20260101T000000Z", "svc@example", "ff"⟩).2
      = .error "The longest expiration value is 604800 seconds (7 days)" := by
  refine ⟨by decide, ?_⟩
  have h := signer_expiry_validation ⟨"GET", "h", "/p", [], []⟩
    ⟨some 0, none, [], [], "20260101T000000Z", "svc@example", "ff"⟩ 604801 (by decide)
  exact h.1

/-! ## Claim C9 -/

/-- C9: `privateAssetUrl` signs with a validity window of exactly 600
seconds — the `X-Goog-Expires` parameter of the produced URL is `600`
and no other value — even though the signer's own default
(`resolvedExpiresIn none`) is 900 seconds. -/
theorem privateAssetUrl_expiry (b k : String) (v : Option String)
    (d em sig : String) :
    ∃ out, (privateAssetUrlRun b k v d em sig).2 = .ok out ∧
      out.expiresIn = 600 ∧
      ("X-Goog-Expires", "600") ∈ out.params ∧
      (∀ s, ("X-Goog-Expires", s) ∈ out.params → s = "600") ∧
      resolvedExpiresIn none = 900 := by
  refine ⟨_, rfl, rfl, ?_, ?_, rfl⟩
  · simp only [privateAssetUrlRun, getSignedUrlRun]
    rw [List.mem_append]
    left
    rw [(List.mergeSort_perm _ _).mem_iff]
    simp
    rfl
  · intro s hs
    simp only [privateAssetUrlRun, getSignedUrlRun] at hs
    rw [List.mem_append, (List.mergeSort_perm _ _).mem_iff] at hs
    simp at hs
    exact hs.trans rfl

/-! ## Claim C5 -/

/-- Every task wrapped by `.catch(() => {})` resolves. -/
lemma catchIgnore_ok (r : Except DeleteErr Unit) : catchIgnore r = .ok () := by
  cases r with
  | error e => rfl
  | ok u => rfl

/-- `Promise.all` over resolved outcomes resolves. -/
lemma promiseAll_ok (rs : List (Except DeleteErr Unit))
    (h : ∀ r ∈ rs, r = .ok ()) : promiseAll rs = .ok () := by
  have hf : rs.find? (fun r => r matches .error _) = none := by
    rw [List.find?_eq_none]
    intro r hr
    rw [h r hr]
    simp
  simp [promiseAll, hf]

/-- C5: `deleteObjects` completes normally whatever subset of the
per-key deletions fail; the `p-limit` semaphore never lets more than
`MAX_PARALLEL_LIMIT = 10` deletions run concurrently; and the in-flight
queue never holds more than `MAX_QUEUE_SIZE = 1000` tasks. -/
theorem deleteObjects_bounded_best_effort :
    (∀ perKey, deleteObjectsOutcome perKey = .ok ()) ∧
    (∀ n s, SemReachable MAX_PARALLEL_LIMIT ⟨n, 0⟩ s →
      s.active ≤ MAX_PARALLEL_LIMIT) ∧
    (∀ n, queueLenAfter n ≤ MAX_QUEUE_SIZE) := by
  refine ⟨?_, ?_, ?_⟩
  · intro perKey
    refine promiseAll_ok _ ?_
    intro r hr
    obtain ⟨x, _, rfl⟩ := List.mem_map.mp hr
    exact catchIgnore_ok x
  · intro n s h
    induction h with
    | refl => exact Nat.zero_le _
    | step hr hs ih =>
      cases hs with
      | start w a hlt => exact hlt
      | finish w a => exact Nat.le_of_succ_le ih
  · intro n
    induction n with
    | zero => exact Nat.zero_le _
    | succ n ih =>
      simp only [queueLenAfter, queueStep]
      split
      · simp [MAX_QUEUE_SIZE]
      · omega

/-- Witness for C5 at a concrete key list and semaphore state. -/
theorem deleteObjects_bounded_best_effort_witness :
    deleteObjectsOutcome [.error .deleteFailed, .ok (), .error .deleteFailed]
      = .ok () ∧
    (SemState.mk 5 0).active ≤ MAX_PARALLEL_LIMIT ∧
    queueLenAfter 3 ≤ MAX_QUEUE_SIZE := by
  obtain ⟨h1, h2, h3⟩ := deleteObjects_bounded_best_effort
  exact ⟨h1 _, h2 5 ⟨5, 0⟩ SemReachable.refl, h3 3⟩

/-! ## Claim C3 -/

/-- The retried acquisition issues at most one call beyond the number of
remaining backoff timeouts. -/
lemma goRetry_calls_le (o : Nat → PoolOutcome) :
    ∀ (ts : List Nat) (a e : Nat),
      (goRetry o ts a e).calls ≤ a + ts.length + 1 := by
  intro ts
  induction ts with
  | nil =>
    intro a e
    rw [goRetry]
    split
    · simp
    · split
      · split <;> simp
      · simp
  | cons t ts' ih =>
    intro a e
    rw [goRetry]
    split
    · simp
    · split
      · split
        · simp
        · have := ih (a + 1) (e + t)
          simp only [List.length_cons]
          omega
      · simp

/-- The accumulated backoff never exceeds the initial elapsed time plus
the sum of the remaining timeouts. -/
lemma goRetry_elapsed_le (o : Nat → PoolOutcome) :
    ∀ (ts : List Nat) (a e : Nat),
      (goRetry o ts a e).elapsed ≤ e + ts.sum := by
  intro ts
  induction ts with
  | nil =>
    intro a e
    rw [goRetry]
    split
    · simp
    · split
      · split <;> simp
      · simp
  | cons t ts' ih =>
    intro a e
    rw [goRetry]
    split
    · simp
    · split
      · split
        · simp
        · have := ih (a + 1) (e + t)
          simp only [List.sum_cons]
          omega
      · simp

/-- Any attempt followed by a further attempt ended in the retriable
error. -/
lemma goRetry_retried_only (o : Nat → PoolOutcome) :
    ∀ (ts : List Nat) (a e i : Nat), a ≤ i →
      i + 1 < (goRetry o ts a e).calls → isRetriableErr (o i) = true := by
  intro ts
  induction ts with
  | nil =>
    intro a e i hai hcalls
    exfalso
    have := goRetry_calls_le o [] a e
    simp at this
    omega
  | cons t ts' ih =>
    intro a e i hai hcalls
    rw [goRetry] at hcalls
    split at hcalls
    · simp at hcalls
      omega
    next e' heq =>
      split at hcalls
      next hr =>
        split at hcalls
        next => simp at hcalls; omega
        next =>
          rcases Nat.eq_or_lt_of_le hai with rfl | hlt
          · exact hr
          · exact ih (a + 1) (e + t) i hlt hcalls
      next hr =>
        simp at hcalls
        omega


/-- C3: the retried transaction acquisition issues at most 11 pool calls
(one initial attempt plus at most 10 retries) within the 3000 ms retry
budget; an attempt is followed by another only when it failed with the
one retriable error — the `08P01` database error whose message contains
"no more connections allowed"; any other error aborts on the first
attempt without retry; and a pool acquisition timeout is surfaced as a
`DatabaseTimeout` error. -/
theorem transaction_retry_policy (outcomes : Nat → PoolOutcome)
    (hasInstance isExternalPool : Bool)
    (execOutcome rawOutcome : Option PoolOutcome) :
    (runRetry outcomes).calls ≤ 11 ∧
    (runRetry outcomes).elapsed ≤ maxRetryTime ∧
    (∀ i, i + 1 < (runRetry outcomes).calls → isRetriableErr (outcomes i) = true) ∧
    (∀ code msg, isRetriableErr (.errDb code msg)
        = (code == "08P01" && strIncludes msg "no more connections allowed")) ∧
    isRetriableErr .errTimeout = false ∧
    isRetriableErr .errOther = false ∧
    (∀ e, e.isErr = true → isRetriableErr e = false → outcomes 0 = e →
      runRetry outcomes = ⟨.error e, 1, 0⟩) ∧
    (outcomes 0 = .errTimeout →
      transactionModel ⟨outcomes, hasInstance, isExternalPool, execOutcome, rawOutcome⟩
        = .error .databaseTimeout) := by
  have habort : ∀ e, PoolOutcome.isErr e = true → isRetriableErr e = false →
      outcomes 0 = e → runRetry outcomes = ⟨.error e, 1, 0⟩ := by
    intro e hisErr hnr h0
    rcases e with c | ⟨code, msg⟩ | _ | _
    · simp [PoolOutcome.isErr] at hisErr
    all_goals (rw [runRetry, goRetry, h0]; simp [hnr])
  refine ⟨?_, ?_, ?_, (fun code msg => rfl), rfl, rfl, habort, ?_⟩
  · have h := goRetry_calls_le outcomes retryTimeouts 0 0
    have hlen : retryTimeouts.length = 10 := by decide
    rw [runRetry]
    omega
  · have h := goRetry_elapsed_le outcomes retryTimeouts 0 0
    have hsum : retryTimeouts.sum = 1750 := by decide
    rw [runRetry]
    simp only [maxRetryTime]
    omega
  · intro i hi
    exact goRetry_retried_only outcomes retryTimeouts 0 0 i (Nat.zero_le i) hi
  · intro h0
    have hrr := habort .errTimeout rfl rfl h0
    simp [transactionModel, hrr, outerCatch]

/-- Witness for C3 at concrete outcome sequences. -/
theorem transaction_retry_policy_witness :
    (runRetry (fun _ => .errOther)).calls ≤ 11 ∧
    runRetry (fun _ => .errOther) = ⟨.error .errOther, 1, 0⟩ ∧
    transactionModel ⟨(fun _ => .errTimeout), false, false, none, none⟩
      = .error .databaseTimeout := by
  obtain ⟨h1, _, _, _, _, _, h7, _⟩ :=
    transaction_retry_policy (fun _ => .errOther) false false none none
  obtain ⟨_, _, _, _, _, _, _, h8⟩ :=
    transaction_retry_policy (fun _ => .errTimeout) false false none none
  exact ⟨h1, h7 .errOther rfl rfl rfl, h8 rfl⟩

/-! ## Claim C4 -/

/-- C4: on an externally fronted pool with no explicit instance, a
transaction that already reports itself completed is never returned as a
success: `transaction()` awaits the execution promise — re-raising its
rejection — and, were that promise to resolve, raises the distinct
database error "Transaction already completed". -/
theorem transaction_completed_detection (outcomes : Nat → PoolOutcome)
    (execOutcome rawOutcome : Option PoolOutcome)
    (h0 : outcomes 0 = .ok true) :
    (∀ c, transactionModel ⟨outcomes, false, true, execOutcome, rawOutcome⟩ ≠ .ok c) ∧
    (execOutcome = none →
      transactionModel ⟨outcomes, false, true, execOutcome, rawOutcome⟩
        = .error .databaseErrorAlreadyCompleted) ∧
    (∀ e, execOutcome = some e →
      transactionModel ⟨outcomes, false, true, execOutcome, rawOutcome⟩
        = .error (outerCatch e)) := by
  have hrun : runRetry outcomes = ⟨.ok true, 1, 0⟩ := by
    rw [runRetry, goRetry, h0]
  rcases execOutcome with _ | e
  · refine ⟨?_, fun _ => ?_, ?_⟩
    · intro c
      simp [transactionModel, hrun]
    · simp [transactionModel, hrun]
    · intro e he
      exact absurd he (by simp)
  · refine ⟨?_, ?_, ?_⟩
    · intro c
      simp [transactionModel, hrun]
    · intro h
      exact absurd h (by simp)
    · intro e' he
      cases he
      simp [transactionModel, hrun]

/-- Witness for C4 at a concrete completed transaction. -/
theorem transaction_completed_detection_witness :
    transactionModel ⟨(fun _ => .ok true), false, true, none, none⟩
      = .error .databaseErrorAlreadyCompleted ∧
    transactionModel ⟨(fun _ => .ok true), false, true, some .errOther, none⟩
      = .error (outerCatch .errOther) := by
  exact ⟨(transaction_completed_detection _ none none rfl).2.1 rfl,
         (transaction_completed_detection _ (some .errOther) none rfl).2.2 .errOther rfl⟩

/-! ## Claim C6 -/

/-- `cacheGet` on a live entry: a hit returning the cached id with the
entry expiry refreshed. -/
lemma cacheGet_hit (c : PoolCache) (key : String) (now ttl : Nat)
    (k : String) (i exp : Nat)
    (hf : c.entries.find? (fun ent => ent.1 == key) = some (k, i, exp))
    (hlt : now < exp) :
    cacheGet c key now ttl = (some i,
      { c with entries :=
          c.entries.map (fun ent => if ent.1 == key then (ent.1, i, now + ttl) else ent) }) := by
  unfold cacheGet
  rw [hf]
  simp [hlt]

/-- `cacheGet` with no entry for the key: a miss. -/
lemma cacheGet_miss_none (c : PoolCache) (key : String) (now ttl : Nat)
    (hf : c.entries.find? (fun ent => ent.1 == key) = none) :
    cacheGet c key now ttl = (none, c) := by
  unfold cacheGet
  rw [hf]

/-- `cacheGet` on an expired entry: a miss. -/
lemma cacheGet_miss_expired (c : PoolCache) (key : String) (now ttl : Nat)
    (k : String) (i exp : Nat)
    (hf : c.entries.find? (fun ent => ent.1 == key) = some (k, i, exp))
    (hge : ¬ now < exp) :
    cacheGet c key now ttl = (none, c) := by
  unfold cacheGet
  rw [hf]
  simp [hge]

/-- `tenantCreate` on a cache hit returns the cached pool. -/
lemma tenantCreate_hit (c : PoolCache) (dbUrl : String) (e m : Bool)
    (now ttl id : Nat) (c' : PoolCache)
    (h : cacheGet c dbUrl now ttl = (some id, c')) :
    tenantCreate c dbUrl e m now ttl = (id, c') := by
  unfold tenantCreate
  rw [h]

/-- `tenantCreate` on a cache miss, when the new pool is cached. -/
lemma tenantCreate_miss (c : PoolCache) (dbUrl : String) (e m : Bool)
    (now ttl : Nat) (c' : PoolCache)
    (h : cacheGet c dbUrl now ttl = (none, c'))
    (hbr : ¬ e = true ∨ ¬ m = true) :
    tenantCreate c dbUrl e m now ttl
      = (c'.nextId, cacheSet { c' with nextId := c'.nextId + 1 } dbUrl
          c'.nextId (now + ttl)) := by
  unfold tenantCreate
  rw [h]
  rcases hbr with hb | hb <;> simp [hb]

/-- After `cacheSet`, the key is found with the stored id and expiry. -/
lemma find?_cacheSet (c : PoolCache) (key : String) (id exp : Nat) :
    (cacheSet c key id exp).entries.find? (fun ent => ent.1 == key)
      = some (key, id, exp) := by
  unfold cacheSet
  rw [List.find?_append]
  have h1 : (c.entries.filter (fun ent => ¬ (ent.1 == key))).find?
      (fun ent => ent.1 == key) = none := by
    rw [List.find?_eq_none]
    intro x hx
    have hmem := (List.mem_filter.mp hx).2
    simp at hmem
    simp [hmem]
  rw [h1]
  simp [List.find?]

/-- After a refresh of the key's entry, the key is found with the
refreshed expiry. -/
lemma find?_refresh (l : List (String × Nat × Nat)) (key k : String)
    (i exp id now ttl : Nat)
    (hf : l.find? (fun ent => ent.1 == key) = some (k, i, exp)) :
    (l.map (fun ent => if ent.1 == key then (ent.1, id, now + ttl) else ent)).find?
      (fun ent => ent.1 == key) = some (k, id, now + ttl) := by
  rw [List.find?_map]
  have hp : ((fun ent : String × Nat × Nat => ent.1 == key) ∘
      (fun ent : String × Nat × Nat =>
        if ent.1 == key then (ent.1, id, now + ttl) else ent))
      = (fun ent => ent.1 == key) := by
    funext ent
    by_cases hc : ent.1 = key <;> simp [hc]
  rw [hp, hf]
  have hk : k = key := by
    have := List.find?_some hf
    simpa using this
  simp [hk]

/-- C6 (amended): the second `TenantConnection.create` with the same
connection string, issued before the first call's TTL expires, is bound
to the same pool — provided the first call's pool was cached at all,
i.e. unless the connection is externally fronted in a multi-tenant
deployment, in which case `create` never caches the pool. -/
theorem pool_cache_reuse (c : PoolCache) (dbUrl : String)
    (e1 m1 e2 m2 : Bool) (now1 now2 ttl : Nat)
    (hcached : ¬ (e1 = true ∧ m1 = true)) (hfresh : now2 < now1 + ttl) :
    (tenantCreate (tenantCreate c dbUrl e1 m1 now1 ttl).2 dbUrl e2 m2 now2 ttl).1
      = (tenantCreate c dbUrl e1 m1 now1 ttl).1 := by
  have hbr : ¬ e1 = true ∨ ¬ m1 = true := by tauto
  have hfind : ∃ k, ((tenantCreate c dbUrl e1 m1 now1 ttl).2).entries.find?
      (fun ent => ent.1 == dbUrl)
      = some (k, (tenantCreate c dbUrl e1 m1 now1 ttl).1, now1 + ttl) := by
    rcases hf : c.entries.find? (fun ent => ent.1 == dbUrl) with _ | ⟨k, i, exp⟩
    · rw [tenantCreate_miss c dbUrl e1 m1 now1 ttl c (cacheGet_miss_none c dbUrl now1 ttl hf) hbr]
      exact ⟨dbUrl, find?_cacheSet _ dbUrl _ _⟩
    · by_cases hlt : now1 < exp
      · rw [tenantCreate_hit c dbUrl e1 m1 now1 ttl i _ (cacheGet_hit c dbUrl now1 ttl k i exp hf hlt)]
        exact ⟨k, find?_refresh c.entries dbUrl k i exp i now1 ttl hf⟩
      · rw [tenantCreate_miss c dbUrl e1 m1 now1 ttl c (cacheGet_miss_expired c dbUrl now1 ttl k i exp hf hlt) hbr]
        exact ⟨dbUrl, find?_cacheSet _ dbUrl _ _⟩
  obtain ⟨k, hk⟩ := hfind
  rw [tenantCreate_hit _ dbUrl e2 m2 now2 ttl _ _
    (cacheGet_hit _ dbUrl now2 ttl k _ _ hk hfresh)]

/-- Witness for C6 (amended) at a concrete cache. -/
theorem pool_cache_reuse_witness :
    (tenantCreate (tenantCreate ⟨[], 0⟩ "postgres://db" false false 0 100).2
        "postgres://db" false false 50 100).1
      = (tenantCreate (⟨[], 0⟩ : PoolCache) "postgres://db" false false 0 100).1 := by
  exact pool_cache_reuse ⟨[], 0⟩ "postgres://db" false false false false 0 50 100
    (by simp) (by omega)

/-- C6 counterexample: with an externally fronted pool in a multi-tenant
deployment, `create` does not cache the pool, so a second call with the
same connection string before any TTL expiry builds a different pool
(id 1) instead of reusing the first (id 0). -/
theorem pool_cache_reuse_counterexample :
    (tenantCreate (⟨[], 0⟩ : PoolCache) "postgres://db" true true 0 100).1 = 0 ∧
    (tenantCreate (tenantCreate ⟨[], 0⟩ "postgres://db" true true 0 100).2
        "postgres://db" true true 0 100).1 = 1 := by
  constructor <;> rfl

end StorageSpec

namespace StorageSpec

-- bit helpers
lemma and31 (x : Nat) : x &&& 31 = x % 32 := by
  have := Nat.and_pow_two_sub_one_eq_mod x 5
  norm_num at this
  exact this

lemma and255 (x : Nat) : x &&& 255 = x % 256 := by
  have := Nat.and_pow_two_sub_one_eq_mod x 8
  norm_num at this
  exact this

lemma and31_lt (x : Nat) : x &&& 31 < 32 := by
  rw [and31]; omega

lemma lor_eq_add_of_mod (k a b : Nat) (ha : a % 2 ^ k = 0) (hb : b < 2 ^ k) :
    a ||| b = a + b := by
  have h : a = 2 ^ k * (a / 2 ^ k) := by
    rcases Nat.eq_mul_of_div_eq_right (Nat.dvd_of_mod_eq_zero ha) rfl with h
    omega
  rw [h, ← Nat.mul_add_lt_is_or hb]

lemma lor_eq_add_of_mod_right (k a b : Nat) (ha : a < 2 ^ k) (hb : b % 2 ^ k = 0) :
    a ||| b = b + a := by
  rw [Nat.lor_comm]
  exact lor_eq_add_of_mod k b a hb ha

/-- The encode loop consumes one full five-byte block into eight 5-bit
indices and returns to carry state 0. -/
lemma encodeGo_block (b0 b1 b2 b3 b4 : Nat) (rest : List Nat) (f : Nat) :
    encodeGo (b0 :: b1 :: b2 :: b3 :: b4 :: rest) (f + 8) 0 =
      ((b0 >>> 3 ||| b1 <<< 5) &&& 31) ::
      ((b0 <<< 2 ||| b1 >>> 6) &&& 31) ::
      ((b1 >>> 1 ||| b2 <<< 7) &&& 31) ::
      ((b1 <<< 4 ||| b2 >>> 4) &&& 31) ::
      ((b2 <<< 1 ||| b3 >>> 7) &&& 31) ::
      ((b3 >>> 2 ||| b4 <<< 6) &&& 31) ::
      ((b3 <<< 3 ||| b4 >>> 5) &&& 31) ::
      ((b4 <<< 0 ||| rest.getD 0 0 >>> 8) &&& 31) :: encodeGo rest f 0 := by
  rfl

-- byte recovery lemmas
lemma byteRecover0 (b0 b1 : Nat) (h0 : b0 < 256) (h1 : b1 < 256) :
    orByte (orByte 0 (((b0 >>> 3 ||| b1 <<< 5) &&& 31) <<< 3))
      (((b0 <<< 2 ||| b1 >>> 6) &&& 31) >>> 2) = b0 := by
  simp only [orByte, and31, and255, Nat.shiftLeft_eq, Nat.shiftRight_eq_div_pow, Nat.zero_or]
  have hc0 : (b0 / 2 ^ 3 ||| b1 * 2 ^ 5) % 32 = b0 / 8 := by
    rw [lor_eq_add_of_mod_right 5 _ _ (by omega) (by omega)]
    omega
  have hc1 : (b0 * 2 ^ 2 ||| b1 / 2 ^ 6) % 32 = b0 % 8 * 4 + b1 / 64 := by
    rw [lor_eq_add_of_mod 2 _ _ (by omega) (by omega)]
    omega
  rw [hc0, hc1]
  rw [lor_eq_add_of_mod 3 _ _ (by omega) (by omega)]
  omega

lemma byteRecover1 (b0 b1 b2 : Nat) (h0 : b0 < 256) (h1 : b1 < 256) (h2 : b2 < 256) :
    orByte (orByte (orByte 0 (((b0 <<< 2 ||| b1 >>> 6) &&& 31) <<< 6))
        (((b1 >>> 1 ||| b2 <<< 7) &&& 31) <<< 1))
      (((b1 <<< 4 ||| b2 >>> 4) &&& 31) >>> 4) = b1 := by
  simp only [orByte, and31, and255, Nat.shiftLeft_eq, Nat.shiftRight_eq_div_pow, Nat.zero_or]
  have hc1 : (b0 * 2 ^ 2 ||| b1 / 2 ^ 6) % 32 = b0 % 8 * 4 + b1 / 64 := by
    rw [lor_eq_add_of_mod 2 _ _ (by omega) (by omega)]
    omega
  have hc2 : (b1 / 2 ^ 1 ||| b2 * 2 ^ 7) % 32 = b1 % 64 / 2 := by
    rw [lor_eq_add_of_mod_right 7 _ _ (by omega) (by omega)]
    omega
  have hc3 : (b1 * 2 ^ 4 ||| b2 / 2 ^ 4) % 32 = b1 % 2 * 16 + b2 / 16 := by
    rw [lor_eq_add_of_mod 4 _ _ (by omega) (by omega)]
    omega
  rw [hc1, hc2, hc3]
  rw [lor_eq_add_of_mod 6 ((b0 % 8 * 4 + b1 / 64) * 2 ^ 6 % 256)
    (b1 % 64 / 2 * 2 ^ 1) (by omega) (by omega)]
  rw [lor_eq_add_of_mod 1
    (((b0 % 8 * 4 + b1 / 64) * 2 ^ 6 % 256 + b1 % 64 / 2 * 2 ^ 1) % 256)
    ((b1 % 2 * 16 + b2 / 16) / 2 ^ 4) (by omega) (by omega)]
  omega

lemma byteRecover2 (b1 b2 b3 : Nat) (h1 : b1 < 256) (h2 : b2 < 256) (h3 : b3 < 256) :
    orByte (orByte 0 (((b1 <<< 4 ||| b2 >>> 4) &&& 31) <<< 4))
      (((b2 <<< 1 ||| b3 >>> 7) &&& 31) >>> 1) = b2 := by
  simp only [orByte, and31, and255, Nat.shiftLeft_eq, Nat.shiftRight_eq_div_pow, Nat.zero_or]
  have hc3 : (b1 * 2 ^ 4 ||| b2 / 2 ^ 4) % 32 = b1 % 2 * 16 + b2 / 16 := by
    rw [lor_eq_add_of_mod 4 _ _ (by omega) (by omega)]
    omega
  have hc4 : (b2 * 2 ^ 1 ||| b3 / 2 ^ 7) % 32 = b2 % 16 * 2 + b3 / 128 := by
    rw [lor_eq_add_of_mod 1 _ _ (by omega) (by omega)]
    omega
  rw [hc3, hc4]
  rw [lor_eq_add_of_mod 4 _ _ (by omega) (by omega)]
  omega

lemma byteRecover3 (b2 b3 b4 : Nat) (h2 : b2 < 256) (h3 : b3 < 256) (h4 : b4 < 256) :
    orByte (orByte (orByte 0 (((b2 <<< 1 ||| b3 >>> 7) &&& 31) <<< 7))
        (((b3 >>> 2 ||| b4 <<< 6) &&& 31) <<< 2))
      (((b3 <<< 3 ||| b4 >>> 5) &&& 31) >>> 3) = b3 := by
  simp only [orByte, and31, and255, Nat.shiftLeft_eq, Nat.shiftRight_eq_div_pow, Nat.zero_or]
  have hc4 : (b2 * 2 ^ 1 ||| b3 / 2 ^ 7) % 32 = b2 % 16 * 2 + b3 / 128 := by
    rw [lor_eq_add_of_mod 1 _ _ (by omega) (by omega)]
    omega
  have hc5 : (b3 / 2 ^ 2 ||| b4 * 2 ^ 6) % 32 = b3 % 128 / 4 := by
    rw [lor_eq_add_of_mod_right 6 _ _ (by omega) (by omega)]
    omega
  have hc6 : (b3 * 2 ^ 3 ||| b4 / 2 ^ 5) % 32 = b3 % 4 * 8 + b4 / 32 := by
    rw [lor_eq_add_of_mod 3 _ _ (by omega) (by omega)]
    omega
  rw [hc4, hc5, hc6]
  rw [lor_eq_add_of_mod 7 ((b2 % 16 * 2 + b3 / 128) * 2 ^ 7 % 256)
    (b3 % 128 / 4 * 2 ^ 2) (by omega) (by omega)]
  rw [lor_eq_add_of_mod 2
    (((b2 % 16 * 2 + b3 / 128) * 2 ^ 7 % 256 + b3 % 128 / 4 * 2 ^ 2) % 256)
    ((b3 % 4 * 8 + b4 / 32) / 2 ^ 3) (by omega) (by omega)]
  omega

lemma byteRecover4 (b3 b4 b5 : Nat) (h3 : b3 < 256) (h4 : b4 < 256) (h5 : b5 < 256) :
    orByte (orByte 0 (((b3 <<< 3 ||| b4 >>> 5) &&& 31) <<< 5))
      (((b4 <<< 0 ||| b5 >>> 8) &&& 31) >>> 0) = b4 := by
  simp only [orByte, and31, and255, Nat.shiftLeft_eq, Nat.shiftRight_eq_div_pow, Nat.zero_or]
  have hc6 : (b3 * 2 ^ 3 ||| b4 / 2 ^ 5) % 32 = b3 % 4 * 8 + b4 / 32 := by
    rw [lor_eq_add_of_mod 3 _ _ (by omega) (by omega)]
    omega
  have hc7 : (b4 * 2 ^ 0 ||| b5 / 2 ^ 8) % 32 = b4 % 32 := by
    rw [lor_eq_add_of_mod 0 _ _ (by omega) (by omega)]
    omega
  rw [hc6, hc7]
  rw [lor_eq_add_of_mod 5 _ _ (by omega) (by omega)]
  omega

end StorageSpec

namespace StorageSpec

/-- One step of the decode loop, for rewriting. -/
lemma decodeRel_cons (ch : Char) (rest : List Char) (f : Nat) (k : Int)
    (tail : List Nat) :
    decodeRel (ch :: rest) (f + 1) k tail =
      match alphaIndexOf ch with
      | none => decodeRel rest f k tail
      | some x =>
        if k < 3 then
          decodeRel rest f (k + 5) (orHead tail (x <<< (3 - k).toNat))
        else
          match tail with
          | [] => decodeRel (ch :: rest) f (k - 8) []
          | h :: t =>
            orByte h (x >>> (k - 3).toNat) :: decodeRel (ch :: rest) f (k - 8) t := rfl

lemma decodeRel_step_lo (ch : Char) (rest : List Char) (x : Nat) (f : Nat)
    (k : Int) (tail : List Nat) (hf : f ≠ 0) (hx : alphaIndexOf ch = some x)
    (hk : k < 3) :
    decodeRel (ch :: rest) f k tail
      = decodeRel rest (f - 1) (k + 5) (orHead tail (x <<< (3 - k).toNat)) := by
  obtain ⟨f', rfl⟩ : ∃ f', f = f' + 1 := ⟨f - 1, by omega⟩
  rw [decodeRel_cons, hx]
  simp only [if_pos hk, Nat.add_sub_cancel]

lemma decodeRel_step_hi_cons (ch : Char) (rest : List Char) (x : Nat) (f : Nat)
    (k : Int) (h : Nat) (t : List Nat) (hf : f ≠ 0)
    (hx : alphaIndexOf ch = some x) (hk : ¬ k < 3) :
    decodeRel (ch :: rest) f k (h :: t)
      = orByte h (x >>> (k - 3).toNat) :: decodeRel (ch :: rest) (f - 1) (k - 8) t := by
  obtain ⟨f', rfl⟩ : ∃ f', f = f' + 1 := ⟨f - 1, by omega⟩
  rw [decodeRel_cons, hx]
  simp only [if_neg hk, Nat.add_sub_cancel]

lemma alphaIndexOf_alphaChar : ∀ i < 32, alphaIndexOf (alphaChar i) = some i := by
  decide

lemma alphaChar_ne_pad : ∀ i < 32, (alphaChar i == padding) = false := by
  decide

lemma orHead_shl8 (n x : Nat) :
    orHead (List.replicate n 0) (x <<< 8) = List.replicate n 0 := by
  cases n with
  | zero => rfl
  | succ m =>
    have hz : orByte 0 (x <<< 8) = 0 := by
      simp only [orByte, Nat.zero_or, Nat.shiftLeft_eq, and255]
      omega
    simp [List.replicate, orHead, hz]

/-- The decode loop consumes one full 8-character block into five bytes
and returns to carry state 0. -/
lemma decodeRel_block (i0 i1 i2 i3 i4 i5 i6 i7 : Nat)
    (h0 : i0 < 32) (h1 : i1 < 32) (h2 : i2 < 32) (h3 : i3 < 32)
    (h4 : i4 < 32) (h5 : i5 < 32) (h6 : i6 < 32) (h7 : i7 < 32)
    (cs : List Char) (g n : Nat) :
    decodeRel (alphaChar i0 :: alphaChar i1 :: alphaChar i2 :: alphaChar i3 ::
        alphaChar i4 :: alphaChar i5 :: alphaChar i6 :: alphaChar i7 :: cs)
      (g + 13) 0 (0 :: 0 :: 0 :: 0 :: 0 :: List.replicate n 0) =
      orByte (orByte 0 (i0 <<< 3)) (i1 >>> 2) ::
      orByte (orByte (orByte 0 (i1 <<< 6)) (i2 <<< 1)) (i3 >>> 4) ::
      orByte (orByte 0 (i3 <<< 4)) (i4 >>> 1) ::
      orByte (orByte (orByte 0 (i4 <<< 7)) (i5 <<< 2)) (i6 >>> 3) ::
      orByte (orByte 0 (i6 <<< 5)) (i7 >>> 0) ::
      decodeRel cs g 0 (List.replicate n 0) := by
  have e0 := alphaIndexOf_alphaChar i0 h0
  have e1 := alphaIndexOf_alphaChar i1 h1
  have e2 := alphaIndexOf_alphaChar i2 h2
  have e3 := alphaIndexOf_alphaChar i3 h3
  have e4 := alphaIndexOf_alphaChar i4 h4
  have e5 := alphaIndexOf_alphaChar i5 h5
  have e6 := alphaIndexOf_alphaChar i6 h6
  have e7 := alphaIndexOf_alphaChar i7 h7
  rw [decodeRel_step_lo _ _ _ _ _ _ (by omega) e0 (by norm_num)]
  simp only [orHead]
  rw [decodeRel_step_hi_cons _ _ _ _ _ _ _ (by omega) e1 (by norm_num)]
  rw [decodeRel_step_lo _ _ _ _ _ _ (by omega) e1 (by norm_num)]
  simp only [orHead]
  rw [decodeRel_step_lo _ _ _ _ _ _ (by omega) e2 (by norm_num)]
  simp only [orHead]
  rw [decodeRel_step_hi_cons _ _ _ _ _ _ _ (by omega) e3 (by norm_num)]
  rw [decodeRel_step_lo _ _ _ _ _ _ (by omega) e3 (by norm_num)]
  simp only [orHead]
  rw [decodeRel_step_hi_cons _ _ _ _ _ _ _ (by omega) e4 (by norm_num)]
  rw [decodeRel_step_lo _ _ _ _ _ _ (by omega) e4 (by norm_num)]
  simp only [orHead]
  rw [decodeRel_step_lo _ _ _ _ _ _ (by omega) e5 (by norm_num)]
  simp only [orHead]
  rw [decodeRel_step_hi_cons _ _ _ _ _ _ _ (by omega) e6 (by norm_num)]
  rw [decodeRel_step_lo _ _ _ _ _ _ (by omega) e6 (by norm_num)]
  simp only [orHead]
  rw [decodeRel_step_hi_cons _ _ _ _ _ _ _ (by omega) e7 (by norm_num)]
  rw [decodeRel_step_lo _ _ _ _ _ _ (by omega) e7 (by norm_num)]
  norm_num
  simp only [show Int.toNat 2 = 2 from rfl, show Int.toNat 3 = 3 from rfl,
    show Int.toNat 4 = 4 from rfl, show Int.toNat 5 = 5 from rfl,
    show Int.toNat 6 = 6 from rfl, show Int.toNat 7 = 7 from rfl,
    show Int.toNat 8 = 8 from rfl]
  simp [orHead_shl8]

end StorageSpec

namespace StorageSpec

lemma bufOrSet_nil (j v : Nat) : bufOrSet [] j v = [] := by
  unfold bufOrSet
  simp

lemma bufOrSet_cons_zero (a : Nat) (t : List Nat) (v : Nat) :
    bufOrSet (a :: t) 0 v = orByte a v :: t := by
  unfold bufOrSet
  simp [List.set]

lemma bufOrSet_cons_succ (a : Nat) (t : List Nat) (j v : Nat) :
    bufOrSet (a :: t) (j + 1) v = a :: bufOrSet t j v := by
  unfold bufOrSet
  by_cases h : j < t.length
  · rw [if_pos (by simp; omega), if_pos h]
    simp [List.set]
  · rw [if_neg (by simp; omega), if_neg h]

lemma take_bufOrSet (arr : List Nat) : ∀ (j v : Nat),
    (bufOrSet arr j v).take j = arr.take j := by
  induction arr with
  | nil => intro j v; rw [bufOrSet_nil]
  | cons a t ih =>
    intro j v
    cases j with
    | zero => simp
    | succ j' =>
      rw [bufOrSet_cons_succ]
      simp only [List.take_succ_cons]
      rw [ih j' v]

lemma drop_bufOrSet (arr : List Nat) : ∀ (j v : Nat),
    (bufOrSet arr j v).drop j = orHead (arr.drop j) v := by
  induction arr with
  | nil => intro j v; rw [bufOrSet_nil]; simp [orHead]
  | cons a t ih =>
    intro j v
    cases j with
    | zero =>
      rw [bufOrSet_cons_zero]
      simp [orHead]
    | succ j' =>
      rw [bufOrSet_cons_succ]
      simp only [List.drop_succ_cons]
      exact ih j' v

lemma drop_succ_bufOrSet (arr : List Nat) (j v : Nat) :
    (bufOrSet arr j v).drop (j + 1) = arr.drop (j + 1) := by
  rw [← List.tail_drop, ← List.tail_drop, drop_bufOrSet]
  rcases arr.drop j with _ | ⟨h, t⟩ <;> simp [orHead]

lemma take_succ_bufOrSet (arr : List Nat) (j v h : Nat) (t : List Nat)
    (hd : arr.drop j = h :: t) :
    (bufOrSet arr j v).take (j + 1) = arr.take j ++ [orByte h v] := by
  rw [List.take_succ, take_bufOrSet]
  have h0 : (bufOrSet arr j v)[j]? = some (orByte h v) := by
    have := List.getElem?_drop (bufOrSet arr j v) j 0
    rw [drop_bufOrSet, hd] at this
    simpa [orHead] using this.symm
  rw [h0]
  rfl

/-- The decode loop at absolute output index `j` leaves the first `j`
bytes untouched and acts as `decodeRel` on the rest. -/
lemma decodeGo_eq_decodeRel : ∀ (f : Nat) (text : List Char) (j : Nat)
    (k : Int) (arr : List Nat),
    decodeGo text f j k arr = arr.take j ++ decodeRel text f k (arr.drop j) := by
  intro f
  induction f with
  | zero =>
    intro text j k arr
    cases text <;> simp [decodeGo, decodeRel, List.take_append_drop]
  | succ f' ih =>
    intro text j k arr
    cases text with
    | nil => simp [decodeGo, decodeRel, List.take_append_drop]
    | cons ch rest =>
      rcases halpha : alphaIndexOf ch with _ | x
      · simp only [decodeGo, decodeRel, halpha]
        exact ih rest j k arr
      · by_cases hk : k < 3
        · simp only [decodeGo, decodeRel, halpha, if_pos hk]
          rw [ih rest j (k + 5) (bufOrSet arr j (x <<< (3 - k).toNat))]
          rw [take_bufOrSet, drop_bufOrSet]
        · simp only [decodeGo, decodeRel, halpha, if_neg hk]
          rw [ih (ch :: rest) (j + 1) (k - 8) (bufOrSet arr j (x >>> (k - 3).toNat))]
          rcases hd : arr.drop j with _ | ⟨h, t⟩
          · have hlen : arr.length ≤ j := by
              rw [← List.drop_eq_nil_iff]
              exact hd
            have hb : bufOrSet arr j (x >>> (k - 3).toNat) = arr := by
              unfold bufOrSet
              rw [if_neg (by omega)]
            rw [hb, List.take_of_length_le (by omega), List.take_of_length_le hlen,
              List.drop_eq_nil_of_le (by omega)]
          · rw [take_succ_bufOrSet arr j _ h t hd, drop_succ_bufOrSet,
              ← List.tail_drop, hd]
            simp

end StorageSpec

namespace StorageSpec

lemma decodeRel_nil (f : Nat) (k : Int) (tail : List Nat) :
    decodeRel [] f k tail = tail := by
  cases f <;> rfl

lemma encodeGo_nil (f : Nat) (k : Int) : encodeGo [] f k = [] := by
  cases f <;> rfl

/-- `charsLen n` is the number of characters the encode loop emits for
an `n`-byte buffer. -/
def charsLen (n : Nat) : Nat := 8 * (n / 5) + (8 * (n % 5) + 4) / 5

lemma encodeGo_one (b0 : Nat) (f : Nat) :
    encodeGo [b0] (f + 2) 0 =
      [(b0 >>> 3 ||| 0 <<< 5) &&& 31, (b0 <<< 2 ||| 0 >>> 6) &&& 31] := by
  rw [show encodeGo [b0] (f + 2) 0
    = ((b0 >>> 3 ||| 0 <<< 5) &&& 31) :: ((b0 <<< 2 ||| 0 >>> 6) &&& 31) ::
      encodeGo [] f 2 from rfl]
  rw [encodeGo_nil]

lemma encodeGo_two (b0 b1 : Nat) (f : Nat) :
    encodeGo [b0, b1] (f + 4) 0 =
      [(b0 >>> 3 ||| b1 <<< 5) &&& 31, (b0 <<< 2 ||| b1 >>> 6) &&& 31,
       (b1 >>> 1 ||| 0 <<< 7) &&& 31, (b1 <<< 4 ||| 0 >>> 4) &&& 31] := by
  rw [show encodeGo [b0, b1] (f + 4) 0
    = ((b0 >>> 3 ||| b1 <<< 5) &&& 31) :: ((b0 <<< 2 ||| b1 >>> 6) &&& 31) ::
      ((b1 >>> 1 ||| 0 <<< 7) &&& 31) :: ((b1 <<< 4 ||| 0 >>> 4) &&& 31) ::
      encodeGo [] f 4 from rfl]
  rw [encodeGo_nil]

lemma encodeGo_three (b0 b1 b2 : Nat) (f : Nat) :
    encodeGo [b0, b1, b2] (f + 5) 0 =
      [(b0 >>> 3 ||| b1 <<< 5) &&& 31, (b0 <<< 2 ||| b1 >>> 6) &&& 31,
       (b1 >>> 1 ||| b2 <<< 7) &&& 31, (b1 <<< 4 ||| b2 >>> 4) &&& 31,
       (b2 <<< 1 ||| 0 >>> 7) &&& 31] := by
  rw [show encodeGo [b0, b1, b2] (f + 5) 0
    = ((b0 >>> 3 ||| b1 <<< 5) &&& 31) :: ((b0 <<< 2 ||| b1 >>> 6) &&& 31) ::
      ((b1 >>> 1 ||| b2 <<< 7) &&& 31) :: ((b1 <<< 4 ||| b2 >>> 4) &&& 31) ::
      ((b2 <<< 1 ||| 0 >>> 7) &&& 31) :: encodeGo [] f 1 from rfl]
  rw [encodeGo_nil]

lemma encodeGo_four (b0 b1 b2 b3 : Nat) (f : Nat) :
    encodeGo [b0, b1, b2, b3] (f + 7) 0 =
      [(b0 >>> 3 ||| b1 <<< 5) &&& 31, (b0 <<< 2 ||| b1 >>> 6) &&& 31,
       (b1 >>> 1 ||| b2 <<< 7) &&& 31, (b1 <<< 4 ||| b2 >>> 4) &&& 31,
       (b2 <<< 1 ||| b3 >>> 7) &&& 31, (b3 >>> 2 ||| 0 <<< 6) &&& 31,
       (b3 <<< 3 ||| 0 >>> 5) &&& 31] := by
  rw [show encodeGo [b0, b1, b2, b3] (f + 7) 0
    = ((b0 >>> 3 ||| b1 <<< 5) &&& 31) :: ((b0 <<< 2 ||| b1 >>> 6) &&& 31) ::
      ((b1 >>> 1 ||| b2 <<< 7) &&& 31) :: ((b1 <<< 4 ||| b2 >>> 4) &&& 31) ::
      ((b2 <<< 1 ||| b3 >>> 7) &&& 31) :: ((b3 >>> 2 ||| 0 <<< 6) &&& 31) ::
      ((b3 <<< 3 ||| 0 >>> 5) &&& 31) :: encodeGo [] f 3 from rfl]
  rw [encodeGo_nil]

end StorageSpec

namespace StorageSpec

/-- Decode of a trailing 2-character group into one byte. -/
lemma decodeRel_tail1 (i0 i1 : Nat) (h0 : i0 < 32) (h1 : i1 < 32)
    (g : Nat) (hg : 3 ≤ g) :
    decodeRel [alphaChar i0, alphaChar i1] g 0 [0]
      = [orByte (orByte 0 (i0 <<< 3)) (i1 >>> 2)] := by
  have e0 := alphaIndexOf_alphaChar i0 h0
  have e1 := alphaIndexOf_alphaChar i1 h1
  rw [decodeRel_step_lo _ _ _ _ _ _ (by omega) e0 (by norm_num)]
  simp only [orHead]
  rw [decodeRel_step_hi_cons _ _ _ _ _ _ _ (by omega) e1 (by norm_num)]
  rw [decodeRel_step_lo _ _ _ _ _ _ (by omega) e1 (by norm_num)]
  simp only [orHead]
  rw [decodeRel_nil]
  norm_num
  simp only [show Int.toNat 2 = 2 from rfl, show Int.toNat 3 = 3 from rfl]

/-- Decode of a trailing 4-character group into two bytes. -/
lemma decodeRel_tail2 (i0 i1 i2 i3 : Nat) (h0 : i0 < 32) (h1 : i1 < 32)
    (h2 : i2 < 32) (h3 : i3 < 32) (g : Nat) (hg : 6 ≤ g) :
    decodeRel [alphaChar i0, alphaChar i1, alphaChar i2, alphaChar i3] g 0 [0, 0]
      = [orByte (orByte 0 (i0 <<< 3)) (i1 >>> 2),
         orByte (orByte (orByte 0 (i1 <<< 6)) (i2 <<< 1)) (i3 >>> 4)] := by
  have e0 := alphaIndexOf_alphaChar i0 h0
  have e1 := alphaIndexOf_alphaChar i1 h1
  have e2 := alphaIndexOf_alphaChar i2 h2
  have e3 := alphaIndexOf_alphaChar i3 h3
  rw [decodeRel_step_lo _ _ _ _ _ _ (by omega) e0 (by norm_num)]
  simp only [orHead]
  rw [decodeRel_step_hi_cons _ _ _ _ _ _ _ (by omega) e1 (by norm_num)]
  rw [decodeRel_step_lo _ _ _ _ _ _ (by omega) e1 (by norm_num)]
  simp only [orHead]
  rw [decodeRel_step_lo _ _ _ _ _ _ (by omega) e2 (by norm_num)]
  simp only [orHead]
  rw [decodeRel_step_hi_cons _ _ _ _ _ _ _ (by omega) e3 (by norm_num)]
  rw [decodeRel_step_lo _ _ _ _ _ _ (by omega) e3 (by norm_num)]
  simp only [orHead]
  rw [decodeRel_nil]
  norm_num
  simp only [show Int.toNat 2 = 2 from rfl, show Int.toNat 3 = 3 from rfl,
    show Int.toNat 4 = 4 from rfl, show Int.toNat 6 = 6 from rfl]
  exact ⟨trivial, trivial⟩

/-- Decode of a trailing 5-character group into three bytes. -/
lemma decodeRel_tail3 (i0 i1 i2 i3 i4 : Nat) (h0 : i0 < 32) (h1 : i1 < 32)
    (h2 : i2 < 32) (h3 : i3 < 32) (h4 : i4 < 32) (g : Nat) (hg : 8 ≤ g) :
    decodeRel [alphaChar i0, alphaChar i1, alphaChar i2, alphaChar i3,
        alphaChar i4] g 0 [0, 0, 0]
      = [orByte (orByte 0 (i0 <<< 3)) (i1 >>> 2),
         orByte (orByte (orByte 0 (i1 <<< 6)) (i2 <<< 1)) (i3 >>> 4),
         orByte (orByte 0 (i3 <<< 4)) (i4 >>> 1)] := by
  have e0 := alphaIndexOf_alphaChar i0 h0
  have e1 := alphaIndexOf_alphaChar i1 h1
  have e2 := alphaIndexOf_alphaChar i2 h2
  have e3 := alphaIndexOf_alphaChar i3 h3
  have e4 := alphaIndexOf_alphaChar i4 h4
  rw [decodeRel_step_lo _ _ _ _ _ _ (by omega) e0 (by norm_num)]
  simp only [orHead]
  rw [decodeRel_step_hi_cons _ _ _ _ _ _ _ (by omega) e1 (by norm_num)]
  rw [decodeRel_step_lo _ _ _ _ _ _ (by omega) e1 (by norm_num)]
  simp only [orHead]
  rw [decodeRel_step_lo _ _ _ _ _ _ (by omega) e2 (by norm_num)]
  simp only [orHead]
  rw [decodeRel_step_hi_cons _ _ _ _ _ _ _ (by omega) e3 (by norm_num)]
  rw [decodeRel_step_lo _ _ _ _ _ _ (by omega) e3 (by norm_num)]
  simp only [orHead]
  rw [decodeRel_step_hi_cons _ _ _ _ _ _ _ (by omega) e4 (by norm_num)]
  rw [decodeRel_step_lo _ _ _ _ _ _ (by omega) e4 (by norm_num)]
  simp only [orHead]
  rw [decodeRel_nil]
  norm_num
  simp only [show Int.toNat 1 = 1 from rfl, show Int.toNat 2 = 2 from rfl,
    show Int.toNat 3 = 3 from rfl, show Int.toNat 4 = 4 from rfl,
    show Int.toNat 6 = 6 from rfl]
  exact ⟨trivial, trivial, trivial⟩

/-- Decode of a trailing 7-character group into four bytes. -/
lemma decodeRel_tail4 (i0 i1 i2 i3 i4 i5 i6 : Nat) (h0 : i0 < 32)
    (h1 : i1 < 32) (h2 : i2 < 32) (h3 : i3 < 32) (h4 : i4 < 32)
    (h5 : i5 < 32) (h6 : i6 < 32) (g : Nat) (hg : 11 ≤ g) :
    decodeRel [alphaChar i0, alphaChar i1, alphaChar i2, alphaChar i3,
        alphaChar i4, alphaChar i5, alphaChar i6] g 0 [0, 0, 0, 0]
      = [orByte (orByte 0 (i0 <<< 3)) (i1 >>> 2),
         orByte (orByte (orByte 0 (i1 <<< 6)) (i2 <<< 1)) (i3 >>> 4),
         orByte (orByte 0 (i3 <<< 4)) (i4 >>> 1),
         orByte (orByte (orByte 0 (i4 <<< 7)) (i5 <<< 2)) (i6 >>> 3)] := by
  have e0 := alphaIndexOf_alphaChar i0 h0
  have e1 := alphaIndexOf_alphaChar i1 h1
  have e2 := alphaIndexOf_alphaChar i2 h2
  have e3 := alphaIndexOf_alphaChar i3 h3
  have e4 := alphaIndexOf_alphaChar i4 h4
  have e5 := alphaIndexOf_alphaChar i5 h5
  have e6 := alphaIndexOf_alphaChar i6 h6
  rw [decodeRel_step_lo _ _ _ _ _ _ (by omega) e0 (by norm_num)]
  simp only [orHead]
  rw [decodeRel_step_hi_cons _ _ _ _ _ _ _ (by omega) e1 (by norm_num)]
  rw [decodeRel_step_lo _ _ _ _ _ _ (by omega) e1 (by norm_num)]
  simp only [orHead]
  rw [decodeRel_step_lo _ _ _ _ _ _ (by omega) e2 (by norm_num)]
  simp only [orHead]
  rw [decodeRel_step_hi_cons _ _ _ _ _ _ _ (by omega) e3 (by norm_num)]
  rw [decodeRel_step_lo _ _ _ _ _ _ (by omega) e3 (by norm_num)]
  simp only [orHead]
  rw [decodeRel_step_hi_cons _ _ _ _ _ _ _ (by omega) e4 (by norm_num)]
  rw [decodeRel_step_lo _ _ _ _ _ _ (by omega) e4 (by norm_num)]
  simp only [orHead]
  rw [decodeRel_step_lo _ _ _ _ _ _ (by omega) e5 (by norm_num)]
  simp only [orHead]
  rw [decodeRel_step_hi_cons _ _ _ _ _ _ _ (by omega) e6 (by norm_num)]
  rw [decodeRel_step_lo _ _ _ _ _ _ (by omega) e6 (by norm_num)]
  simp only [orHead]
  rw [decodeRel_nil]
  norm_num
  simp only [show Int.toNat 1 = 1 from rfl, show Int.toNat 2 = 2 from rfl,
    show Int.toNat 3 = 3 from rfl, show Int.toNat 4 = 4 from rfl,
    show Int.toNat 6 = 6 from rfl, show Int.toNat 7 = 7 from rfl]
  exact ⟨trivial, trivial, trivial, trivial⟩

end StorageSpec

namespace StorageSpec

/-- Every 5-bit index the encode loop emits is below 32. -/
lemma encodeGo_mem_lt : ∀ (f : Nat) (buf : List Nat) (k : Int) (x : Nat),
    x ∈ encodeGo buf f k → x < 32 := by
  intro f
  induction f with
  | zero =>
    intro buf k x hx
    cases buf <;> simp [encodeGo] at hx
  | succ f' ih =>
    intro buf k x hx
    cases buf with
    | nil => simp [encodeGo] at hx
    | cons b rest =>
      simp only [encodeGo] at hx
      split at hx <;> split at hx <;>
        (rcases List.mem_cons.mp hx with rfl | hmem
         · exact and31_lt _
         · exact ih _ _ _ hmem)

/-- The main inductive invariant: encoding an `n`-byte buffer emits
`charsLen n` indices, and decoding their characters into `n` zero bytes
recovers the buffer. -/
lemma roundtrip_main : ∀ (n : Nat) (bytes : List Nat), bytes.length = n →
    (∀ b ∈ bytes, b < 256) →
    ((∀ f, 2 * n ≤ f → (encodeGo bytes f 0).length = charsLen n) ∧
     (∀ f g, 2 * n ≤ f → 2 * charsLen n ≤ g →
       decodeRel ((encodeGo bytes f 0).map alphaChar) g 0 (List.replicate n 0)
         = bytes)) := by
  intro n
  induction n using Nat.strong_induction_on with
  | _ n ih =>
  intro bytes hlen hbound
  rcases bytes with _ | ⟨b0, _ | ⟨b1, _ | ⟨b2, _ | ⟨b3, _ | ⟨b4, rest⟩⟩⟩⟩⟩
  · simp only [List.length_nil] at hlen
    subst hlen
    constructor
    · intro f _
      rw [encodeGo_nil]
      rfl
    · intro f g _ _
      rw [encodeGo_nil]
      simp only [List.map_nil]
      rw [decodeRel_nil]
      rfl
  · simp only [List.length_singleton] at hlen
    subst hlen
    have hb0 : b0 < 256 := hbound b0 (by simp)
    constructor
    · intro f hf
      obtain ⟨f', rfl⟩ : ∃ f', f = f' + 2 := ⟨f - 2, by omega⟩
      rw [encodeGo_one]
      rfl
    · intro f g hf hg
      obtain ⟨f', rfl⟩ : ∃ f', f = f' + 2 := ⟨f - 2, by omega⟩
      rw [encodeGo_one]
      simp only [List.map_cons, List.map_nil]
      rw [show List.replicate 1 (0 : Nat) = [0] from rfl]
      rw [decodeRel_tail1 _ _ (and31_lt _) (and31_lt _) g
        (by have : charsLen 1 = 2 := by decide
            omega)]
      rw [byteRecover0 b0 0 hb0 (by omega)]
  · simp only [List.length_cons, List.length_nil] at hlen
    subst hlen
    have hb0 : b0 < 256 := hbound b0 (by simp)
    have hb1 : b1 < 256 := hbound b1 (by simp)
    constructor
    · intro f hf
      obtain ⟨f', rfl⟩ : ∃ f', f = f' + 4 := ⟨f - 4, by omega⟩
      rw [encodeGo_two]
      rfl
    · intro f g hf hg
      obtain ⟨f', rfl⟩ : ∃ f', f = f' + 4 := ⟨f - 4, by omega⟩
      rw [encodeGo_two]
      simp only [List.map_cons, List.map_nil]
      rw [show List.replicate (0 + 1 + 1) (0 : Nat) = [0, 0] from rfl]
      rw [decodeRel_tail2 _ _ _ _ (and31_lt _) (and31_lt _) (and31_lt _)
        (and31_lt _) g
        (by have : charsLen (0 + 1 + 1) = 4 := by decide
            omega)]
      rw [byteRecover0 b0 b1 hb0 hb1, byteRecover1 b0 b1 0 hb0 hb1 (by omega)]
  · simp only [List.length_cons, List.length_nil] at hlen
    subst hlen
    have hb0 : b0 < 256 := hbound b0 (by simp)
    have hb1 : b1 < 256 := hbound b1 (by simp)
    have hb2 : b2 < 256 := hbound b2 (by simp)
    constructor
    · intro f hf
      obtain ⟨f', rfl⟩ : ∃ f', f = f' + 5 := ⟨f - 5, by omega⟩
      rw [encodeGo_three]
      rfl
    · intro f g hf hg
      obtain ⟨f', rfl⟩ : ∃ f', f = f' + 5 := ⟨f - 5, by omega⟩
      rw [encodeGo_three]
      simp only [List.map_cons, List.map_nil]
      rw [show List.replicate (0 + 1 + 1 + 1) (0 : Nat) = [0, 0, 0] from rfl]
      rw [decodeRel_tail3 _ _ _ _ _ (and31_lt _) (and31_lt _) (and31_lt _)
        (and31_lt _) (and31_lt _) g
        (by have : charsLen (0 + 1 + 1 + 1) = 5 := by decide
            omega)]
      rw [byteRecover0 b0 b1 hb0 hb1, byteRecover1 b0 b1 b2 hb0 hb1 hb2,
        byteRecover2 b1 b2 0 hb1 hb2 (by omega)]
  · simp only [List.length_cons, List.length_nil] at hlen
    subst hlen
    have hb0 : b0 < 256 := hbound b0 (by simp)
    have hb1 : b1 < 256 := hbound b1 (by simp)
    have hb2 : b2 < 256 := hbound b2 (by simp)
    have hb3 : b3 < 256 := hbound b3 (by simp)
    constructor
    · intro f hf
      obtain ⟨f', rfl⟩ : ∃ f', f = f' + 7 := ⟨f - 7, by omega⟩
      rw [encodeGo_four]
      rfl
    · intro f g hf hg
      obtain ⟨f', rfl⟩ : ∃ f', f = f' + 7 := ⟨f - 7, by omega⟩
      rw [encodeGo_four]
      simp only [List.map_cons, List.map_nil]
      rw [show List.replicate (0 + 1 + 1 + 1 + 1) (0 : Nat) = [0, 0, 0, 0] from rfl]
      rw [decodeRel_tail4 _ _ _ _ _ _ _ (and31_lt _) (and31_lt _) (and31_lt _)
        (and31_lt _) (and31_lt _) (and31_lt _) (and31_lt _) g
        (by have : charsLen (0 + 1 + 1 + 1 + 1) = 7 := by decide
            omega)]
      rw [byteRecover0 b0 b1 hb0 hb1, byteRecover1 b0 b1 b2 hb0 hb1 hb2,
        byteRecover2 b1 b2 b3 hb1 hb2 hb3, byteRecover3 b2 b3 0 hb2 hb3 (by omega)]
  · simp only [List.length_cons] at hlen
    subst hlen
    have hb0 : b0 < 256 := hbound b0 (by simp)
    have hb1 : b1 < 256 := hbound b1 (by simp)
    have hb2 : b2 < 256 := hbound b2 (by simp)
    have hb3 : b3 < 256 := hbound b3 (by simp)
    have hb4 : b4 < 256 := hbound b4 (by simp)
    have hbrest : ∀ b ∈ rest, b < 256 := fun b hb => hbound b (by simp [hb])
    have hb5 : rest.getD 0 0 < 256 := by
      rcases rest with _ | ⟨r0, rs⟩
      · simp
      · exact hbrest r0 (by simp)
    have hcl : charsLen (rest.length + 1 + 1 + 1 + 1 + 1)
        = 8 + charsLen rest.length := by
      simp only [charsLen]
      omega
    have ihrest := ih rest.length (by omega) rest rfl hbrest
    constructor
    · intro f hf
      obtain ⟨f', rfl⟩ : ∃ f', f = f' + 8 := ⟨f - 8, by omega⟩
      rw [encodeGo_block]
      simp only [List.length_cons]
      rw [ihrest.1 f' (by omega), hcl]
      omega
    · intro f g hf hg
      obtain ⟨f', rfl⟩ : ∃ f', f = f' + 8 := ⟨f - 8, by omega⟩
      obtain ⟨g', rfl⟩ : ∃ g', g = g' + 13 := ⟨g - 13, by omega⟩
      rw [encodeGo_block]
      simp only [List.map_cons]
      rw [show List.replicate (rest.length + 1 + 1 + 1 + 1 + 1) (0 : Nat)
        = 0 :: 0 :: 0 :: 0 :: 0 :: List.replicate rest.length 0 from rfl]
      rw [decodeRel_block _ _ _ _ _ _ _ _ (and31_lt _) (and31_lt _)
        (and31_lt _) (and31_lt _) (and31_lt _) (and31_lt _) (and31_lt _)
        (and31_lt _)]
      rw [byteRecover0 b0 b1 hb0 hb1, byteRecover1 b0 b1 b2 hb0 hb1 hb2,
        byteRecover2 b1 b2 b3 hb1 hb2 hb3, byteRecover3 b2 b3 b4 hb2 hb3 hb4,
        byteRecover4 b3 b4 (rest.getD 0 0) hb3 hb4 hb5]
      rw [ihrest.2 f' g' (by omega) (by rw [hcl] at hg; omega)]

end StorageSpec

namespace StorageSpec

/-- Stripping trailing padding from encoded characters followed by pad
fill recovers exactly the encoded characters. -/
lemma stripPad_append_pad (cs : List Char) (p : Nat)
    (h : ∀ c ∈ cs, (c == padding) = false) :
    stripPad (cs ++ List.replicate p padding) = cs := by
  unfold stripPad
  rw [List.reverse_append, List.reverse_replicate]
  have hdrop : ∀ q, List.dropWhile (· == padding)
      (List.replicate q padding ++ cs.reverse)
      = List.dropWhile (· == padding) cs.reverse := by
    intro q
    induction q with
    | zero => simp
    | succ q' ihq =>
      rw [List.replicate_succ, List.cons_append, List.dropWhile_cons_of_pos (by simp)]
      exact ihq
  rw [hdrop]
  have hself : List.dropWhile (· == padding) cs.reverse = cs.reverse := by
    rcases hrev : cs.reverse with _ | ⟨c, t⟩
    · rfl
    · rw [List.dropWhile_cons_of_neg]
      have hc : c ∈ cs := by
        have : c ∈ cs.reverse := by rw [hrev]; simp
        simpa using this
      simp [h c hc]
  rw [hself, List.reverse_reverse]

/-- C10: the hand-rolled base32 codec round-trips every byte buffer:
`encode` pads its output with `=` to a multiple of 8 characters,
`decode` strips the trailing padding, and decoding the encoding of any
buffer of bytes returns that buffer. -/
theorem base32_roundtrip (bytes : List Nat) (h : ∀ b ∈ bytes, b < 256) :
    base32decode (base32encode bytes) = bytes := by
  obtain ⟨hlen, hdec⟩ := roundtrip_main bytes.length bytes rfl h
  simp only [base32encode, base32decode, encodeIdx]
  have hnp : ∀ c ∈ (encodeGo bytes (2 * bytes.length) 0).map alphaChar,
      (c == padding) = false := by
    intro c hc
    obtain ⟨i, hi, rfl⟩ := List.mem_map.mp hc
    exact alphaChar_ne_pad i (encodeGo_mem_lt _ _ _ i hi)
  rw [stripPad_append_pad _ _ hnp]
  have hL : ((encodeGo bytes (2 * bytes.length) 0).map alphaChar).length
      = charsLen bytes.length := by
    rw [List.length_map]
    exact hlen (2 * bytes.length) le_rfl
  rw [hL]
  have harr : charsLen bytes.length * 5 / 8 = bytes.length := by
    simp only [charsLen]
    omega
  rw [harr]
  rw [decodeGo_eq_decodeRel]
  simp only [List.take_zero, List.drop_zero, List.nil_append]
  exact hdec (2 * bytes.length) (2 * charsLen bytes.length) le_rfl le_rfl

/-- Witness for C10 at a concrete buffer. -/
theorem base32_roundtrip_witness :
    base32decode (base32encode [104, 105, 33, 255, 0, 1]) = [104, 105, 33, 255, 0, 1] := by
  exact base32_roundtrip [104, 105, 33, 255, 0, 1] (by decide)

end StorageSpec
